import Mathlib

/-
Verification of the multi-validator consensus engine
(proxy_server/managers/multi_validator_manager.py).

Shallow embedding conventions:
* Python dicts with insertion order are association lists `List (String × Value)`;
  `dict.get` is `lookupField` (first matching key).
* Python floats are rationals `ℚ`; timestamps are integers (seconds).
* Python payload values (numbers, booleans, strings) are the tagged type `Value`.
* Fallible store calls return `Except String α`; a `try/except` that re-raises is
  error propagation, one that returns a default produces that default.
-/

/-- Tagged payload value: the open `miner_status` mapping holds numbers,
booleans or strings. -/
inductive Value where
  | num (q : ℚ)
  | str (s : String)
  | boolV (b : Bool)
deriving DecidableEq

/-- `dict.get(k)`: first binding of key `k` in an insertion-ordered mapping. -/
def lookupField {α : Type} (l : List (String × α)) (k : String) : Option α :=
  (l.find? (fun p => p.1 == k)).map (fun p => p.2)

/-- `k in dict`. -/
def hasKey {α : Type} (l : List (String × α)) (k : String) : Bool :=
  (lookupField l k).isSome

/-- `ValidatorReport` dataclass: one observation by one validator about one miner. -/
structure ValidatorReport where
  validator_uid : ℤ
  miner_uid : Value
  timestamp : ℤ
  epoch : ℤ
  miner_status : List (String × Value)
  confidence_score : ℚ
deriving DecidableEq

/-- Distinct elements in first-encounter order, skipping anything in `seen`:
the order in which a Python dict built by a loop acquires its keys. -/
def firstDedup {α : Type} [DecidableEq α] (seen : List α) : List α → List α
  | [] => []
  | a :: l => if a ∈ seen then firstDedup seen l else a :: firstDedup (a :: seen) l

/-- `required_fields` of `_calculate_validator_confidence`. -/
def requiredFields : List String := ["uid", "hotkey", "stake", "is_serving"]

/-- `detailed_fields` of `_calculate_validator_confidence`. -/
def detailedFields : List String := ["performance_score", "current_load", "task_type_specialization"]

/-- `_calculate_validator_confidence`: base 1.0, −0.1 per missing required field,
+0.05 per present detailed field, +0.1 / +0.05 freshness bonus when the declared
`last_seen` parses and is within 5 / 15 minutes of now (an unparsable or
non-string `last_seen` is swallowed by the bare `except: pass` and adds nothing),
the total clamped by `max(0.1, min(1.0, ·))`.  `parse` abstracts
`datetime.fromisoformat`; times are in seconds. -/
def validatorConfidence (parse : String → Option ℤ) (now : ℤ)
    (miner_status : List (String × Value)) : ℚ :=
  let base : ℚ := 1
  let missing := requiredFields.filter (fun f => !(hasKey miner_status f))
  let c1 := base - (missing.length : ℚ) * (1/10)
  let detailedCount := (detailedFields.filter (fun f => hasKey miner_status f)).length
  let c2 := c1 + (detailedCount : ℚ) * (5/100)
  let c3 :=
    match lookupField miner_status "last_seen" with
    | some (Value.str s) =>
      match parse s with
      | some t =>
        if now - t < 5 * 60 then c2 + 1/10
        else if now - t < 15 * 60 then c2 + 5/100
        else c2
      | none => c2
    | some _ => c2
    | none => c2
  max (1/10) (min 1 c3)

/-- `_weighted_average`: confidence-weighted mean, arithmetic mean when the
total weight is zero, 0.0 for empty input. -/
def weightedAverage (values weights : List ℚ) : ℚ :=
  if values.isEmpty || weights.isEmpty then 0
  else
    let totalWeight := weights.sum
    if totalWeight = 0 then values.sum / (values.length : ℚ)
    else ((values.zip weights).map (fun p => p.1 * p.2)).sum / totalWeight

/-- Modelled from the spec: "confidence-weighted average. Weight = each report's
`confidence`; if the sum of weights for that field is zero, fall back to an
unweighted arithmetic mean." -/
def specWeightedAverage (values weights : List ℚ) : ℚ :=
  if weights.sum = 0 then values.sum / (values.length : ℚ)
  else (List.zipWith (fun v w => v * w) values weights).sum / weights.sum

/-- Total weight accumulated by one distinct value in `_majority_vote`'s
`value_counts` dict. -/
def tallyWeight (values : List Value) (weights : List ℚ) (v : Value) : ℚ :=
  (((values.zip weights).filter (fun p => p.1 == v)).map (fun p => p.2)).sum

/-- `value_counts`: per distinct value (in first-encounter order, the iteration
order of the Python dict) its summed weight. -/
def valueCounts (values : List Value) (weights : List ℚ) : List (Value × ℚ) :=
  (firstDedup [] values).map (fun v => (v, tallyWeight values weights v))

/-- `_majority_vote`: first value (in dict order) whose summed weight reaches
60% of the total weight wins without conflict; otherwise `values[0]` with the
conflict flag set.  `(None, False)` for empty input. -/
def majorityVote (values : List Value) (weights : List ℚ) : Option Value × Bool :=
  if values.isEmpty then (none, false)
  else
    let counts := valueCounts values weights
    let majorityThreshold := weights.sum * (6/10)
    match counts.find? (fun p => decide (majorityThreshold ≤ p.2)) with
    | some p => (some p.1, false)
    | none => (values.head?, true)

/-- Python `max` on a list of floats (first maximum). -/
def listMaxQ : List ℚ → Option ℚ
  | [] => none
  | w :: ws => some (ws.foldl (fun a b => max a b) w)

/-- `max(reports, key=lambda r: r.timestamp)`: first report with maximal
timestamp. -/
def argmaxTimestamp : List ValidatorReport → Option ValidatorReport
  | [] => none
  | r :: rs => some (rs.foldl (fun acc x => if acc.timestamp < x.timestamp then x else acc) r)

/-- `_most_recent_high_confidence`: keep the reports (all reports, zipped
against the field-filtered weight list exactly as the Python `zip` does) whose
paired weight is ≥ 80% of the maximal weight, take the most recent of them, and
return the value of the FIRST key of its payload
(`miner_status.get(list(miner_status.keys())[0])`); fall back to `values[0]`
when no report clears the bar. -/
def mostRecentHighConfidence (values : List Value) (weights : List ℚ)
    (reports : List ValidatorReport) : Option Value :=
  if values.isEmpty || reports.isEmpty then none
  else
    match listMaxQ weights with
    | none => none
    | some maxConfidence =>
      let high := ((reports.zip weights).filter
        (fun rw => decide (maxConfidence * (8/10) ≤ rw.2))).map (fun rw => rw.1)
      match argmaxTimestamp high with
      | some mostRecent =>
        match mostRecent.miner_status with
        | [] => none
        | (k, _) :: _ => lookupField mostRecent.miner_status k
      | none => values.head?

/-- `_calculate_overall_confidence`: mean report confidence plus
`min(0.2, 0.1·distinct_validators)` minus the (never implemented, hence 0)
conflict penalty, capped above by `min(1.0, ·)`.  Note: no lower clamp. -/
def overallConfidence (reports : List ValidatorReport) : ℚ :=
  if reports.isEmpty then 0
  else
    let avgConfidence := (reports.map (fun r => r.confidence_score)).sum / (reports.length : ℚ)
    let validatorBonus :=
      min (2/10 : ℚ) (((firstDedup [] (reports.map (fun r => r.validator_uid))).length : ℚ) * (1/10))
    let conflictPenalty : ℚ := 0
    min 1 (avgConfidence + validatorBonus - conflictPenalty)

/-- Numeric fields of `_calculate_consensus_status` (weighted-average class). -/
def numericFields : List String := ["stake", "performance_score", "current_load"]

/-- Categorical fields of `_calculate_consensus_status` (majority-vote class). -/
def categoricalFields : List String := ["is_serving", "hotkey"]

/-- Python arithmetic view of a payload value: numbers are themselves, booleans
multiply as 0/1, a string raises `TypeError` (modelled as `none`; the enclosing
`_calculate_consensus_status` catches it and returns the empty dict). -/
def valueAsNum : Value → Option ℚ
  | Value.num q => some q
  | Value.boolV b => some (if b then 1 else 0)
  | Value.str _ => none

/-- `field_values` collected for one field: the field's value from each report
that contains it, in report order. -/
def fieldValues (reports : List ValidatorReport) (f : String) : List Value :=
  reports.filterMap (fun r => lookupField r.miner_status f)

/-- `field_weights`: the confidence score of each report containing the field,
aligned with `fieldValues`. -/
def fieldWeights (reports : List ValidatorReport) (f : String) : List ℚ :=
  (reports.filter (fun r => hasKey r.miner_status f)).map (fun r => r.confidence_score)

/-- `all_fields`: union of payload keys over all reports.  The Python set has
no fixed iteration order; the model fixes first-appearance order. -/
def allFields (reports : List ValidatorReport) : List String :=
  firstDedup [] ((reports.map (fun r => r.miner_status.map (fun p => p.1))).flatten)

/-- True when some numeric field carries a non-numeric value, i.e. when the
Python computation would raise inside `_weighted_average` and
`_calculate_consensus_status` would return `{}`. -/
def hasNumericTypeError (reports : List ValidatorReport) : Bool :=
  (allFields reports).any (fun f =>
    decide (f ∈ numericFields) && (fieldValues reports f).any (fun v => (valueAsNum v).isNone))

/-- Per-field consensus value: the strategy dispatch of
`_calculate_consensus_status` (numeric → weighted average, categorical →
majority vote, default → most recent high confidence). -/
def consensusFieldValue (reports : List ValidatorReport) (f : String) : Option Value :=
  let vals := fieldValues reports f
  let ws := fieldWeights reports f
  if f ∈ numericFields then some (Value.num (weightedAverage (vals.filterMap valueAsNum) ws))
  else if f ∈ categoricalFields then (majorityVote vals ws).1
  else mostRecentHighConfidence vals ws reports

/-- Whether `_calculate_consensus_status` appends a conflict for this field:
only categorical fields whose majority vote came back flagged. -/
def fieldConflict (reports : List ValidatorReport) (f : String) : Bool :=
  decide (f ∈ categoricalFields)
    && (majorityVote (fieldValues reports f) (fieldWeights reports f)).2

/-- The dict built by `_calculate_consensus_status`: per-field consensus values
plus the metadata keys. -/
structure ConsensusStatus where
  fields : List (String × Option Value)
  consensus_timestamp : ℤ
  consensus_validators : List ℤ
  consensus_confidence : ℚ
  conflicts_detected : List (String × Bool)
deriving DecidableEq

/-- `_calculate_consensus_status`.  `none` models the `{}` returned for an
empty report list or when the internal computation raises (non-numeric value in
a numeric field). -/
def calculateConsensusStatus (reports : List ValidatorReport) (now : ℤ) :
    Option ConsensusStatus :=
  if reports.isEmpty then none
  else if hasNumericTypeError reports then none
  else some
    { fields := (allFields reports).filterMap (fun f =>
        if (fieldValues reports f).isEmpty then none
        else some (f, consensusFieldValue reports f)),
      consensus_timestamp := now,
      consensus_validators := firstDedup [] (reports.map (fun r => r.validator_uid)),
      consensus_confidence := overallConfidence reports,
      conflicts_detected := (allFields reports).filterMap (fun f =>
        if (fieldValues reports f).isEmpty then none
        else if fieldConflict reports f then some (f, true) else none) }

/-- `min_consensus_validators` configuration (default 2). -/
def min_consensus_validators : ℕ := 2

/-- `consensus_timeout` configuration: 5 minutes, in seconds. -/
def consensus_timeout : ℤ := 5 * 60

/-- The document written into the `miner_consensus` collection by
`_update_miner_consensus`.  Its `consensus_confidence` reads
`consensus_status.get('confidence', 0.0)`, but the computed dict keys the score
as `'consensus_confidence'`, so the stored value is always the 0.0 default. -/
structure ConsensusRecord where
  miner_uid : Value
  consensus_status : Option ConsensusStatus
  last_consensus : ℤ
  validator_reports_count : ℕ
  consensus_confidence : ℚ
deriving DecidableEq

/-- Persistent consensus collection plus the in-memory consensus cache, keyed
by miner uid. -/
structure EngineState where
  consensusStore : List (Value × ConsensusRecord)
  consensusCache : List (Value × Option ConsensusStatus)
deriving DecidableEq

/-- Upsert into a keyed collection (document `set`, dict assignment). -/
def putAssoc {α : Type} (m : List (Value × α)) (k : Value) (v : α) : List (Value × α) :=
  if m.any (fun p => p.1 == k) then m.map (fun p => if p.1 == k then (k, v) else p)
  else m ++ [(k, v)]

/-- `_update_miner_consensus`, applied to the recency window already fetched:
below `min_consensus_validators` reports nothing happens and 0 is returned;
otherwise the consensus is computed, persisted, cached, and 1 is returned. -/
def updateMinerConsensus (minerUid : Value) (recent : List ValidatorReport) (now : ℤ)
    (st : EngineState) : ℕ × EngineState :=
  if recent.length < min_consensus_validators then (0, st)
  else
    let cs := calculateConsensusStatus recent now
    let rcd : ConsensusRecord :=
      { miner_uid := minerUid, consensus_status := cs, last_consensus := now,
        validator_reports_count := recent.length, consensus_confidence := 0 }
    (1, { consensusStore := putAssoc st.consensusStore minerUid rcd,
          consensusCache := putAssoc st.consensusCache minerUid cs })

/-- Store-layer collaborator: the two document writes of
`_store_validator_report` and the report query of `_get_recent_miner_reports`,
each fallible. -/
structure Store where
  setReport : ValidatorReport → Except String Unit
  setMinerTouch : ValidatorReport → Except String Unit
  queryReports : Value → Except String (List ValidatorReport)

/-- `_store_validator_report`: two writes; the `except` clause logs and
re-raises, so any store error propagates to the caller. -/
def storeValidatorReport (store : Store) (report : ValidatorReport) : Except String Unit :=
  match store.setReport report with
  | Except.error e => Except.error e
  | Except.ok _ => store.setMinerTouch report

/-- `_get_recent_miner_reports`: query all reports for the miner and keep those
within the window.  The `except` clause logs and returns `[]`, so a failing
query is NOT propagated. -/
def getRecentMinerReports (store : Store) (minerUid : Value) (now : ℤ) :
    List ValidatorReport :=
  let cutoffTime := now - consensus_timeout
  match store.queryReports minerUid with
  | Except.ok docs => docs.filter (fun r => decide (cutoffTime ≤ r.timestamp))
  | Except.error _ => []

/-- The `ValidatorReport` built for one batch item in
`receive_validator_report`. -/
def mkReport (parse : String → Option ℤ) (validatorUid epoch now : ℤ) (uid : Value)
    (status : List (String × Value)) : ValidatorReport :=
  { validator_uid := validatorUid, miner_uid := uid, timestamp := now, epoch := epoch,
    miner_status := status, confidence_score := validatorConfidence parse now status }

/-- One iteration of the batch loop of `receive_validator_report`: skip items
without a `uid`, store the report (a store error is caught by the per-item
`except` and the item skipped), recompute the miner's consensus, and bump the
processed / consensus-updated counters. -/
def processItem (store : Store) (parse : String → Option ℤ) (validatorUid epoch now : ℤ)
    (acc : (ℕ × ℕ) × EngineState) (status : List (String × Value)) :
    (ℕ × ℕ) × EngineState :=
  match lookupField status "uid" with
  | none => acc
  | some uid =>
    let report := mkReport parse validatorUid epoch now uid status
    match storeValidatorReport store report with
    | Except.error _ => acc
    | Except.ok _ =>
      let recent := getRecentMinerReports store uid now
      let upd := updateMinerConsensus uid recent now acc.2
      ((acc.1.1 + 1, acc.1.2 + upd.1), upd.2)

/-- The dict returned by a successful `receive_validator_report`. -/
structure ReceiveResult where
  success : Bool
  miners_processed : ℕ
  consensus_updated : ℕ
  validator_uid : ℤ
  epoch : ℤ
deriving DecidableEq

/-- `receive_validator_report`: fold the batch loop over the submitted
statuses and report the counters. -/
def receiveValidatorReport (store : Store) (parse : String → Option ℤ)
    (validatorUid : ℤ) (minerStatuses : List (List (String × Value)))
    (epoch now : ℤ) (st : EngineState) : ReceiveResult × EngineState :=
  let out := minerStatuses.foldl (processItem store parse validatorUid epoch now) ((0, 0), st)
  ({ success := true, miners_processed := out.1.1, consensus_updated := out.1.2,
     validator_uid := validatorUid, epoch := epoch }, out.2)

/-- An item counts as processed exactly when its payload has a `uid` and the
report store accepts the report. -/
def itemSucceeds (store : Store) (parse : String → Option ℤ)
    (validatorUid epoch now : ℤ) (status : List (String × Value)) : Bool :=
  match lookupField status "uid" with
  | none => false
  | some uid =>
    match storeValidatorReport store (mkReport parse validatorUid epoch now uid status) with
    | Except.ok _ => true
    | Except.error _ => false

/-- Default-class example, first report: payload holds only the default-class
field `tag`. -/
def c1r1 : ValidatorReport :=
  { validator_uid := 1, miner_uid := Value.num 7, timestamp := 0, epoch := 0,
    miner_status := [("tag", Value.str "a")], confidence_score := 1 }

/-- Default-class example, most recent report: its payload's first key is
`uid`, while the aggregated field `tag` comes second. -/
def c1r2 : ValidatorReport :=
  { validator_uid := 2, miner_uid := Value.num 7, timestamp := 1, epoch := 0,
    miner_status := [("uid", Value.num 5), ("tag", Value.str "b")], confidence_score := 1 }

/-- Two reports about the same miner from the SAME validator. -/
def c2r1 : ValidatorReport :=
  { validator_uid := 1, miner_uid := Value.num 7, timestamp := 10, epoch := 0,
    miner_status := [("hotkey", Value.str "hk")], confidence_score := 1 }

/-- Second report from the same validator as `c2r1`. -/
def c2r2 : ValidatorReport :=
  { validator_uid := 1, miner_uid := Value.num 7, timestamp := 20, epoch := 0,
    miner_status := [("hotkey", Value.str "hk")], confidence_score := 1 }

/-- Empty engine state. -/
def st0 : EngineState := { consensusStore := [], consensusCache := [] }

/-- Categorical split example: two validators disagree on `hotkey`. -/
def c3r1 : ValidatorReport :=
  { validator_uid := 1, miner_uid := Value.num 7, timestamp := 10, epoch := 0,
    miner_status := [("hotkey", Value.str "h1")], confidence_score := 1 }

/-- Categorical split example, the disagreeing report. -/
def c3r2 : ValidatorReport :=
  { validator_uid := 2, miner_uid := Value.num 7, timestamp := 20, epoch := 0,
    miner_status := [("hotkey", Value.str "h2")], confidence_score := 1 }

/-- The consensus status computed from `[c3r1, c3r2]` at time 50. -/
def c3cs : ConsensusStatus :=
  { fields := [("hotkey", some (Value.str "h1"))],
    consensus_timestamp := 50,
    consensus_validators := [1, 2],
    consensus_confidence := 1,
    conflicts_detected := [("hotkey", true)] }

/-- A report whose stored confidence is negative (nothing in the data type
forbids it; `_calculate_overall_confidence` applies no lower clamp). -/
def negReport : ValidatorReport :=
  { validator_uid := 1, miner_uid := Value.num 7, timestamp := 0, epoch := 0,
    miner_status := [], confidence_score := -2 }

/-- A store whose report query fails with an I/O error while both writes
succeed. -/
def failStore : Store :=
  { setReport := fun _ => Except.ok (),
    setMinerTouch := fun _ => Except.ok (),
    queryReports := fun _ => Except.error "io error" }

/-- A store whose first write fails. -/
def errStore : Store :=
  { setReport := fun _ => Except.error "disk full",
    setMinerTouch := fun _ => Except.ok (),
    queryReports := fun _ => Except.ok [] }

/-- A store where everything succeeds and the query returns no reports. -/
def okStore : Store :=
  { setReport := fun _ => Except.ok (),
    setMinerTouch := fun _ => Except.ok (),
    queryReports := fun _ => Except.ok [] }

/-- A freshness parser that never parses. -/
def noParse : String → Option ℤ := fun _ => none

/-- A sample report used to exercise the persist path. -/
def sampleReport : ValidatorReport :=
  { validator_uid := 3, miner_uid := Value.num 9, timestamp := 0, epoch := 1,
    miner_status := [("uid", Value.num 9)], confidence_score := 1 }

lemma mem_firstDedup {α : Type} [DecidableEq α] (a : α) :
    ∀ (l seen : List α), a ∈ firstDedup seen l ↔ a ∈ l ∧ a ∉ seen := by
  intro l
  induction l with
  | nil => intro seen; simp [firstDedup]
  | cons b t ih =>
    intro seen
    unfold firstDedup
    by_cases hb : b ∈ seen
    · rw [if_pos hb, ih]
      by_cases hab : a = b
      · subst hab; simp [hb]
      · simp [hab]
    · rw [if_neg hb]
      by_cases hab : a = b
      · subst hab; simp [hb]
      · simp only [List.mem_cons, hab, false_or, ih, List.mem_cons]

lemma nodup_firstDedup {α : Type} [DecidableEq α] :
    ∀ (l seen : List α), (firstDedup seen l).Nodup := by
  intro l
  induction l with
  | nil => intro seen; simp [firstDedup]
  | cons b t ih =>
    intro seen
    unfold firstDedup
    by_cases hb : b ∈ seen
    · rw [if_pos hb]; exact ih seen
    · rw [if_neg hb]
      refine List.Nodup.cons ?_ (ih (b :: seen))
      intro hmem
      exact ((mem_firstDedup b t (b :: seen)).mp hmem).2 (List.mem_cons_self b seen)

lemma list_find_of_unique {α : Type} (p : α → Bool) (a : α) :
    ∀ (l : List α), a ∈ l → p a = true → (∀ b ∈ l, p b = true → b = a) →
      l.find? p = some a := by
  intro l
  induction l with
  | nil => intro h; cases h
  | cons c t ih =>
    intro hmem hpa huniq
    by_cases hpc : p c = true
    · have hca : c = a := huniq c (List.mem_cons_self c t) hpc
      subst hca
      exact List.find?_cons_of_pos t hpc
    · rw [List.find?_cons_of_neg t (by simpa using hpc)]
      apply ih ?_ hpa
      · intro b hb hpb
        exact huniq b (List.mem_cons_of_mem c hb) hpb
      · rcases List.mem_cons.mp hmem with rfl | h
        · exact absurd hpa hpc
        · exact h

lemma sum_map_filter_disjoint (l : List (Value × ℚ)) (p q : Value × ℚ → Bool)
    (hl : ∀ x ∈ l, 0 ≤ x.2) (hpq : ∀ x, ¬(p x = true ∧ q x = true)) :
    ((l.filter p).map (fun x => x.2)).sum + ((l.filter q).map (fun x => x.2)).sum
      ≤ (l.map (fun x => x.2)).sum := by
  induction l with
  | nil => simp
  | cons a t ih =>
    have ha := hl a (List.mem_cons_self a t)
    have iht := ih (fun x hx => hl x (List.mem_cons_of_mem a hx))
    rw [List.filter_cons, List.filter_cons, List.map_cons, List.sum_cons]
    by_cases hpa : p a = true
    · have hqa : q a = false := Bool.eq_false_iff.mpr (fun h => hpq a ⟨hpa, h⟩)
      simp only [hpa, if_true, hqa, Bool.false_eq_true, if_false, List.map_cons, List.sum_cons]
      linarith
    · have hpa' : p a = false := Bool.eq_false_iff.mpr hpa
      by_cases hqa : q a = true
      · simp only [hpa', Bool.false_eq_true, if_false, hqa, if_true, List.map_cons, List.sum_cons]
        linarith
      · have hqa' : q a = false := Bool.eq_false_iff.mpr hqa
        simp only [hpa', hqa', Bool.false_eq_true, if_false]
        linarith

lemma sum_snd_zip (values : List Value) :
    ∀ (weights : List ℚ), values.length = weights.length →
      ((values.zip weights).map (fun p => p.2)).sum = weights.sum := by
  induction values with
  | nil =>
    intro w h
    cases w with
    | nil => simp
    | cons b u => simp at h
  | cons a t ih =>
    intro w h
    cases w with
    | nil => simp at h
    | cons b u =>
      simp only [List.zip_cons_cons, List.map_cons, List.sum_cons, List.length_cons] at h ⊢
      rw [ih u (by omega)]

lemma tally_nonneg (values : List Value) (weights : List ℚ)
    (hw : ∀ w ∈ weights, 0 ≤ w) (v : Value) : 0 ≤ tallyWeight values weights v := by
  apply List.sum_nonneg
  intro x hx
  obtain ⟨pr, hpr, rfl⟩ := List.mem_map.mp hx
  exact hw _ (List.of_mem_zip (List.mem_of_mem_filter hpr)).2

lemma tally_pair_le (values : List Value) (weights : List ℚ)
    (hlen : values.length = weights.length) (hw : ∀ w ∈ weights, 0 ≤ w)
    (x v : Value) (hxv : x ≠ v) :
    tallyWeight values weights x + tallyWeight values weights v ≤ weights.sum := by
  unfold tallyWeight
  calc ((List.filter (fun pr => pr.1 == x) (values.zip weights)).map (fun pr => pr.2)).sum
        + ((List.filter (fun pr => pr.1 == v) (values.zip weights)).map (fun pr => pr.2)).sum
      ≤ ((values.zip weights).map (fun pr => pr.2)).sum := by
        apply sum_map_filter_disjoint
        · intro e he
          exact hw _ (List.of_mem_zip he).2
        · rintro e ⟨h1, h2⟩
          exact hxv ((eq_of_beq h1).symm.trans (eq_of_beq h2))
    _ = weights.sum := sum_snd_zip values weights hlen

lemma map_mul_zip (l1 l2 : List ℚ) :
    (l1.zip l2).map (fun p => p.1 * p.2) = List.zipWith (fun v w => v * w) l1 l2 := by
  induction l1 generalizing l2 with
  | nil => simp
  | cons a t ih => cases l2 <;> simp [ih]

/-- C4: the numeric consensus is the confidence-weighted average
(Σ value·weight / Σ weight), degenerating to the unweighted arithmetic mean
when the weight sum is zero — `weightedAverage` agrees with the formula
`specWeightedAverage` taken verbatim from the spec on every non-empty input —
and the spec's worked example holds: values 100 and 120 with weights 1.0 and
0.5 yield 320/3 ≈ 106.67. -/
theorem C4_weighted_average :
    (∀ (values weights : List ℚ), values ≠ [] → weights ≠ [] →
      weightedAverage values weights = specWeightedAverage values weights)
    ∧ weightedAverage [100, 120] [1, 1/2] = 320/3 := by
  constructor
  · intro values weights hv hw
    match values, weights with
    | v :: vt, w :: wt =>
      unfold weightedAverage specWeightedAverage
      simp only [List.isEmpty_cons, Bool.false_or, Bool.false_eq_true, if_false]
      rw [map_mul_zip]
  · norm_num [weightedAverage]

/-- C4 witness: the general equivalence applied at the spec's worked example. -/
theorem C4_weighted_average_witness :
    weightedAverage [100, 120] [1, 1/2] = specWeightedAverage [100, 120] [1, 1/2]
    ∧ weightedAverage [100, 120] [1, 1/2] = 320/3 :=
  ⟨C4_weighted_average.1 [100, 120] [1, 1/2] (by simp) (by simp),
   C4_weighted_average.2⟩

/-- C5 counterexample: `_calculate_overall_confidence` applies no lower clamp,
so a (data-type-admissible) negative stored confidence makes the whole-record
confidence negative, outside the claimed interval [0, 1]. -/
theorem C5_overall_confidence_counterexample : overallConfidence [negReport] < 0 := by
  norm_num [overallConfidence, negReport, firstDedup]

/-- C5 (amended): the whole-record confidence equals mean report confidence
plus min(0.2, 0.1·distinct validators), capped above by 1; only the upper
clamp exists in the code, but whenever every contributing confidence is
nonnegative (as for every score the ingestion path produces) the result does
lie in [0, 1]. -/
theorem C5_overall_confidence (reports : List ValidatorReport)
    (hne : reports ≠ []) (hconf : ∀ r ∈ reports, 0 ≤ r.confidence_score) :
    overallConfidence reports =
      min 1 ((reports.map (fun r => r.confidence_score)).sum / (reports.length : ℚ)
        + min (2/10) (((firstDedup [] (reports.map (fun r => r.validator_uid))).length : ℚ) * (1/10)))
    ∧ 0 ≤ overallConfidence reports ∧ overallConfidence reports ≤ 1 := by
  have hemp : reports.isEmpty = false := by
    cases reports with
    | nil => exact absurd rfl hne
    | cons a t => simp
  have havg : 0 ≤ (reports.map (fun r => r.confidence_score)).sum / (reports.length : ℚ) := by
    apply div_nonneg
    · apply List.sum_nonneg
      intro x hx
      obtain ⟨r, hr, rfl⟩ := List.mem_map.mp hx
      exact hconf r hr
    · exact Nat.cast_nonneg _
  have hbonus : (0:ℚ) ≤ min (2/10)
      (((firstDedup [] (reports.map (fun r => r.validator_uid))).length : ℚ) * (1/10)) := by
    apply le_min
    · norm_num
    · positivity
  refine ⟨?_, ?_, ?_⟩
  · simp only [overallConfidence, hemp, Bool.false_eq_true, if_false, sub_zero]
  · simp only [overallConfidence, hemp, Bool.false_eq_true, if_false, sub_zero]
    exact le_min (by norm_num) (by linarith)
  · simp only [overallConfidence, hemp, Bool.false_eq_true, if_false, sub_zero]
    exact min_le_left _ _

/-- A report with full confidence 1.0, for witnesses. -/
def c5r : ValidatorReport :=
  { validator_uid := 1, miner_uid := Value.num 7, timestamp := 0, epoch := 0,
    miner_status := [], confidence_score := 1 }

/-- C5 witness: the amended statement at the one-report list `[c5r]`. -/
theorem C5_overall_confidence_witness :
    overallConfidence [c5r] =
      min 1 (([c5r].map (fun r => r.confidence_score)).sum / (([c5r].length : ℕ) : ℚ)
        + min (2/10) (((firstDedup [] ([c5r].map (fun r => r.validator_uid))).length : ℚ) * (1/10)))
    ∧ 0 ≤ overallConfidence [c5r] ∧ overallConfidence [c5r] ≤ 1 :=
  C5_overall_confidence [c5r] (by simp)
    (by intro r hr; rw [List.mem_singleton.mp hr]; norm_num [c5r])

/-- C6: the per-report ingestion confidence always lies in [0.1, 1.0] — for
every payload, parser and clock, even with all required fields missing or all
richness fields present — and an unparsable `last_seen` timestamp contributes
nothing (the score equals the one computed with a parser that never parses). -/
theorem C6_validator_confidence (parse : String → Option ℤ) (now : ℤ)
    (miner_status : List (String × Value)) :
    (1/10 ≤ validatorConfidence parse now miner_status
      ∧ validatorConfidence parse now miner_status ≤ 1)
    ∧ (∀ s, lookupField miner_status "last_seen" = some (Value.str s) → parse s = none →
        validatorConfidence parse now miner_status = validatorConfidence noParse now miner_status) := by
  constructor
  · constructor
    · exact le_max_left _ _
    · exact max_le (by norm_num) (min_le_left _ _)
  · intro s h1 h2
    simp only [validatorConfidence, h1, h2, noParse]

/-- C6 witness: the bounds and the unparsable-timestamp case at a concrete
payload whose `last_seen` does not parse. -/
theorem C6_validator_confidence_witness :
    (1/10 ≤ validatorConfidence noParse 0 [("last_seen", Value.str "garbage")]
      ∧ validatorConfidence noParse 0 [("last_seen", Value.str "garbage")] ≤ 1)
    ∧ validatorConfidence noParse 0 [("last_seen", Value.str "garbage")]
        = validatorConfidence noParse 0 [("last_seen", Value.str "garbage")] :=
  ⟨(C6_validator_confidence noParse 0 [("last_seen", Value.str "garbage")]).1,
   (C6_validator_confidence noParse 0 [("last_seen", Value.str "garbage")]).2 "garbage" rfl rfl⟩

lemma tally_zero (values : List Value) (weights : List ℚ)
    (hw : ∀ w ∈ weights, w = 0) (v : Value) : tallyWeight values weights v = 0 := by
  apply List.sum_eq_zero
  intro x hx
  obtain ⟨pr, hpr, rfl⟩ := List.mem_map.mp hx
  exact hw _ (List.of_mem_zip (List.mem_of_mem_filter hpr)).2

/-- C9: when every weight is zero, the 60% threshold is zero, so the very
first entry of the tally dict — the first distinct value encountered, i.e. the
value of the first report — is selected and no conflict is flagged. -/
theorem C9_zero_weight_vote (v0 : Value) (rest : List Value) (weights : List ℚ)
    (hw : ∀ w ∈ weights, w = 0) :
    majorityVote (v0 :: rest) weights = (some v0, false) := by
  have hsum : weights.sum = 0 := List.sum_eq_zero hw
  have hkeys : firstDedup ([] : List Value) (v0 :: rest) = v0 :: firstDedup [v0] rest := by
    simp [firstDedup]
  unfold majorityVote valueCounts
  rw [hkeys]
  simp only [List.isEmpty_cons, Bool.false_eq_true, if_false, List.map_cons, List.find?]
  rw [hsum]
  simp only [tally_zero _ _ hw]
  norm_num

/-- C9 witness: the zero-weight vote at a concrete two-value split. -/
theorem C9_zero_weight_vote_witness :
    majorityVote [Value.str "a", Value.str "b"] [0, 0] = (some (Value.str "a"), false) :=
  C9_zero_weight_vote (Value.str "a") [Value.str "b"] [0, 0]
    (by intro w hw; rcases List.mem_cons.mp hw with rfl | hw
        · rfl
        · rw [List.mem_singleton.mp hw])

/-- C2 counterexample: a recency window holding two reports from the SAME
validator (one distinct validator, below the claimed minimum of two distinct
validators) still produces a consensus update — the gate counts reports, not
distinct validators — and the cached consensus entry changes. -/
theorem C2_min_validators_counterexample :
    (firstDedup [] ([c2r1, c2r2].map (fun r => r.validator_uid))).length
        < min_consensus_validators
    ∧ (updateMinerConsensus (Value.num 7) [c2r1, c2r2] 100 st0).1 = 1
    ∧ (updateMinerConsensus (Value.num 7) [c2r1, c2r2] 100 st0).2.consensusCache
        ≠ st0.consensusCache := by
  refine ⟨by simp +decide [firstDedup, c2r1, c2r2, min_consensus_validators], ?_, ?_⟩
  · simp +decide [updateMinerConsensus, min_consensus_validators]
  · simp +decide [updateMinerConsensus, min_consensus_validators, putAssoc, st0]

/-- C2 (amended): when the recency window holds fewer than
`min_consensus_validators` REPORTS (the code gates on report count, which
equals the distinct-validator count only when each validator has at most one
report in the window), no consensus is emitted (0 returned), the persisted
record is not written and the cached entry is unchanged. -/
theorem C2_insufficient_reports (minerUid : Value) (recent : List ValidatorReport)
    (now : ℤ) (st : EngineState) (h : recent.length < min_consensus_validators) :
    updateMinerConsensus minerUid recent now st = (0, st) := by
  unfold updateMinerConsensus
  rw [if_pos h]

/-- C2 witness: a single-report window leaves the state untouched. -/
theorem C2_insufficient_reports_witness :
    updateMinerConsensus (Value.num 7) [c2r1] 100 st0 = (0, st0) :=
  C2_insufficient_reports (Value.num 7) [c2r1] 100 st0 (by simp [min_consensus_validators])

/-- C7 counterexample: an I/O error raised by the recency-window query is NOT
surfaced — `_get_recent_miner_reports` swallows it and hands its caller an
ordinary empty report list. -/
theorem C7_store_error_counterexample :
    failStore.queryReports (Value.num 7) = Except.error "io error"
    ∧ getRecentMinerReports failStore (Value.num 7) 1000 = [] :=
  ⟨rfl, rfl⟩

/-- C7 (amended): store errors during persist (`_store_validator_report`,
either of its two writes) propagate to the caller with no retry, but an error
during the recency-window query is caught inside `_get_recent_miner_reports`,
which returns the empty list instead of surfacing it. -/
theorem C7_store_error_handling :
    (∀ (store : Store) (r : ValidatorReport) (e : String),
      store.setReport r = Except.error e → storeValidatorReport store r = Except.error e)
    ∧ (∀ (store : Store) (r : ValidatorReport) (e : String),
      store.setReport r = Except.ok () → store.setMinerTouch r = Except.error e →
        storeValidatorReport store r = Except.error e)
    ∧ (∀ (store : Store) (minerUid : Value) (now : ℤ) (e : String),
      store.queryReports minerUid = Except.error e →
        getRecentMinerReports store minerUid now = []) := by
  refine ⟨?_, ?_, ?_⟩
  · intro store r e h
    unfold storeValidatorReport
    rw [h]
  · intro store r e h1 h2
    unfold storeValidatorReport
    rw [h1, h2]
  · intro store minerUid now e h
    unfold getRecentMinerReports
    rw [h]

/-- C7 witness: a failing first write propagates out of the persist step, and
a failing query yields the empty list. -/
theorem C7_store_error_handling_witness :
    storeValidatorReport errStore sampleReport = Except.error "disk full"
    ∧ getRecentMinerReports failStore (Value.num 7) 1000 = [] :=
  ⟨C7_store_error_handling.1 errStore sampleReport "disk full" rfl,
   C7_store_error_handling.2.2 failStore (Value.num 7) 1000 "io error" rfl⟩

lemma processItem_of_fail (store : Store) (parse : String → Option ℤ)
    (validatorUid epoch now : ℤ) (acc : (ℕ × ℕ) × EngineState)
    (status : List (String × Value))
    (h : itemSucceeds store parse validatorUid epoch now status = false) :
    processItem store parse validatorUid epoch now acc status = acc := by
  unfold itemSucceeds at h
  unfold processItem
  cases h1 : lookupField status "uid" with
  | none => simp [h1]
  | some uid =>
    simp only [h1] at h
    cases h2 : storeValidatorReport store (mkReport parse validatorUid epoch now uid status) with
    | error e => simp [h1, h2]
    | ok u => simp [h2] at h

lemma processItem_counts (store : Store) (parse : String → Option ℤ)
    (validatorUid epoch now : ℤ) (acc : (ℕ × ℕ) × EngineState)
    (status : List (String × Value)) :
    (processItem store parse validatorUid epoch now acc status).1.1
      = acc.1.1 + (if itemSucceeds store parse validatorUid epoch now status then 1 else 0)
    ∧ (processItem store parse validatorUid epoch now acc status).1.2
      ≤ acc.1.2 + (if itemSucceeds store parse validatorUid epoch now status then 1 else 0) := by
  unfold processItem itemSucceeds
  cases h1 : lookupField status "uid" with
  | none => simp [h1]
  | some uid =>
    cases h2 : storeValidatorReport store (mkReport parse validatorUid epoch now uid status) with
    | error e => simp [h1, h2]
    | ok u =>
      simp only [h1, h2]
      have hle : (updateMinerConsensus uid
          (getRecentMinerReports store uid now) now acc.2).1 ≤ 1 := by
        unfold updateMinerConsensus
        split
        · simp
        · simp
      constructor
      · simp
      · simp only [if_true]
        omega

lemma foldl_processed_count (store : Store) (parse : String → Option ℤ)
    (validatorUid epoch now : ℤ) :
    ∀ (l : List (List (String × Value))) (acc : (ℕ × ℕ) × EngineState),
      (l.foldl (processItem store parse validatorUid epoch now) acc).1.1
        = acc.1.1 + (l.filter (fun s => itemSucceeds store parse validatorUid epoch now s)).length := by
  intro l
  induction l with
  | nil => intro acc; simp
  | cons s t ih =>
    intro acc
    rw [List.foldl_cons, ih, List.filter_cons,
      (processItem_counts store parse validatorUid epoch now acc s).1]
    by_cases h : itemSucceeds store parse validatorUid epoch now s = true
    · simp [h]
      omega
    · have h' : itemSucceeds store parse validatorUid epoch now s = false :=
        Bool.eq_false_iff.mpr h
      simp [h']

lemma foldl_consensus_le_processed (store : Store) (parse : String → Option ℤ)
    (validatorUid epoch now : ℤ) :
    ∀ (l : List (List (String × Value))) (acc : (ℕ × ℕ) × EngineState),
      acc.1.2 ≤ acc.1.1 →
        (l.foldl (processItem store parse validatorUid epoch now) acc).1.2
          ≤ (l.foldl (processItem store parse validatorUid epoch now) acc).1.1 := by
  intro l
  induction l with
  | nil => intro acc h; simpa using h
  | cons s t ih =>
    intro acc hacc
    rw [List.foldl_cons]
    apply ih
    have h1 := (processItem_counts store parse validatorUid epoch now acc s).1
    have h2 := (processItem_counts store parse validatorUid epoch now acc s).2
    omega

/-- C8: batch processing of `receive_validator_report` — the processed counter
equals exactly the number of batch items that carry a `uid` and whose report
the store accepts (`itemSucceeds`); an item whose payload lacks `uid` never
counts; and a failing item is a no-op, so it does not abort or affect the
processing of the remaining items.  The result record carries this per-item
count (`miners_processed`) rather than a single batch verdict. -/
theorem C8_batch_tolerates_failure (store : Store) (parse : String → Option ℤ)
    (validatorUid : ℤ) (minerStatuses : List (List (String × Value)))
    (epoch now : ℤ) (st : EngineState) :
    (receiveValidatorReport store parse validatorUid minerStatuses epoch now st).1.miners_processed
      = (minerStatuses.filter (fun s => itemSucceeds store parse validatorUid epoch now s)).length
    ∧ (∀ s, lookupField s "uid" = none →
        itemSucceeds store parse validatorUid epoch now s = false)
    ∧ (∀ (bad : List (String × Value)) (rest : List (List (String × Value))),
        itemSucceeds store parse validatorUid epoch now bad = false →
          receiveValidatorReport store parse validatorUid (bad :: rest) epoch now st
            = receiveValidatorReport store parse validatorUid rest epoch now st) := by
  refine ⟨?_, ?_, ?_⟩
  · unfold receiveValidatorReport
    simpa using foldl_processed_count store parse validatorUid epoch now minerStatuses ((0, 0), st)
  · intro s h
    unfold itemSucceeds
    rw [h]
  · intro bad rest h
    unfold receiveValidatorReport
    rw [List.foldl_cons, processItem_of_fail store parse validatorUid epoch now _ bad h]

/-- C8 witness: a batch of a uid-less item and a well-formed item processes
exactly the well-formed one; the uid-less payload is classified as a skip; and
dropping a failing head item leaves the result unchanged. -/
theorem C8_batch_tolerates_failure_witness :
    (receiveValidatorReport okStore noParse 1 [[], [("uid", Value.num 1)]] 0 100 st0).1.miners_processed
      = ([[], [("uid", Value.num 1)]].filter (fun s => itemSucceeds okStore noParse 1 0 100 s)).length
    ∧ itemSucceeds okStore noParse 1 0 100 [] = false
    ∧ receiveValidatorReport okStore noParse 1 [[], [("uid", Value.num 1)]] 0 100 st0
        = receiveValidatorReport okStore noParse 1 [[("uid", Value.num 1)]] 0 100 st0 :=
  ⟨(C8_batch_tolerates_failure okStore noParse 1 [[], [("uid", Value.num 1)]] 0 100 st0).1,
   (C8_batch_tolerates_failure okStore noParse 1 [[], [("uid", Value.num 1)]] 0 100 st0).2.1 [] rfl,
   (C8_batch_tolerates_failure okStore noParse 1 [[], [("uid", Value.num 1)]] 0 100 st0).2.2
     [] [[("uid", Value.num 1)]] rfl⟩

/-- C10: for every call of `receive_validator_report`, the returned counters
satisfy consensus_updated ≤ miners_processed ≤ number of submitted statuses
(and both are naturals, hence ≥ 0): each item adds at most one to each
counter, and only a processed item can add to consensus_updated. -/
theorem C10_counter_invariant (store : Store) (parse : String → Option ℤ)
    (validatorUid : ℤ) (minerStatuses : List (List (String × Value)))
    (epoch now : ℤ) (st : EngineState) :
    (receiveValidatorReport store parse validatorUid minerStatuses epoch now st).1.consensus_updated
      ≤ (receiveValidatorReport store parse validatorUid minerStatuses epoch now st).1.miners_processed
    ∧ (receiveValidatorReport store parse validatorUid minerStatuses epoch now st).1.miners_processed
      ≤ minerStatuses.length := by
  constructor
  · unfold receiveValidatorReport
    simpa using foldl_consensus_le_processed store parse validatorUid epoch now
      minerStatuses ((0, 0), st) (by simp)
  · unfold receiveValidatorReport
    simp only []
    rw [foldl_processed_count store parse validatorUid epoch now minerStatuses ((0, 0), st)]
    simpa using List.length_filter_le
      (fun s => itemSucceeds store parse validatorUid epoch now s) minerStatuses

lemma lookup_filterMap_none {α : Type} (d : String → Bool) (q : String → α) (f : String) :
    ∀ l : List String, f ∉ l →
      lookupField (l.filterMap (fun x => if d x then none else some (x, q x))) f = none := by
  intro l
  induction l with
  | nil => intro _; rfl
  | cons a t ih =>
    intro hf
    have haf : ((a, q a).1 == f) = false :=
      beq_eq_false_iff_ne.mpr (fun h => hf (h ▸ List.mem_cons_self a t))
    by_cases hda : d a = true
    · simp only [List.filterMap_cons, hda, if_true]
      exact ih (fun h => hf (List.mem_cons_of_mem a h))
    · have hda' : d a = false := Bool.eq_false_iff.mpr hda
      simp only [List.filterMap_cons, hda', Bool.false_eq_true, if_false]
      unfold lookupField
      simp only [List.find?_cons, haf]
      exact ih (fun h => hf (List.mem_cons_of_mem a h))

lemma lookup_filterMap_keyed {α : Type} (d : String → Bool) (q : String → α) (f : String) :
    ∀ l : List String, l.Nodup → f ∈ l →
      lookupField (l.filterMap (fun x => if d x then none else some (x, q x))) f
        = if d f then none else some (q f) := by
  intro l
  induction l with
  | nil => intro _ h; cases h
  | cons a t ih =>
    intro hnd hf
    have hnd' := List.nodup_cons.mp hnd
    by_cases haf : a = f
    · subst haf
      by_cases hda : d a = true
      · simp only [List.filterMap_cons, hda, if_true]
        exact lookup_filterMap_none d q a t hnd'.1
      · have hda' : d a = false := Bool.eq_false_iff.mpr hda
        simp only [List.filterMap_cons, hda', Bool.false_eq_true, if_false]
        unfold lookupField
        simp only [List.find?_cons, beq_self_eq_true]
        rfl
    · have hft : f ∈ t := by
        rcases List.mem_cons.mp hf with rfl | h
        · exact absurd rfl haf
        · exact h
      by_cases hda : d a = true
      · simp only [List.filterMap_cons, hda, if_true]
        exact ih hnd'.2 hft
      · have hda' : d a = false := Bool.eq_false_iff.mpr hda
        have haf' : ((a, q a).1 == f) = false := beq_eq_false_iff_ne.mpr haf
        simp only [List.filterMap_cons, hda', Bool.false_eq_true, if_false]
        unfold lookupField
        simp only [List.find?_cons, haf']
        exact ih hnd'.2 hft

lemma mem_allFields_of_fieldValues_ne_nil (reports : List ValidatorReport) (f : String)
    (h : fieldValues reports f ≠ []) : f ∈ allFields reports := by
  obtain ⟨v, hv⟩ := List.exists_mem_of_ne_nil _ h
  obtain ⟨r, hr, hlk⟩ := List.mem_filterMap.mp hv
  unfold allFields
  rw [mem_firstDedup]
  refine ⟨?_, List.not_mem_nil f⟩
  rw [List.mem_flatten]
  refine ⟨r.miner_status.map (fun p => p.1), List.mem_map_of_mem _ hr, ?_⟩
  unfold lookupField at hlk
  obtain ⟨pr, hp1, hp2⟩ := Option.map_eq_some'.mp hlk
  have hpm := List.mem_of_find?_eq_some hp1
  have hpe := List.find?_some hp1
  have hfe : pr.1 = f := by simpa using hpe
  exact hfe ▸ List.mem_map_of_mem _ hpm

/-- C3: categorical (majority-vote) fields.  (1) When the weights are aligned,
nonnegative and of positive total, any value whose summed weight reaches the
60% threshold is selected with no conflict flagged.  (2) When no value reaches
the threshold, the conflict flag is set and the output is the value of the
first report in the stable input order.  (3) Through
`_calculate_consensus_status`, a present categorical field's output equals the
majority-vote result and a conflict entry for the field (recorded as the
boolean flag the spec prints as "no_majority" — the code's only conflict kind)
is in `conflicts_detected` exactly when the vote was flagged. -/
theorem C3_categorical_majority :
    (∀ (values : List Value) (weights : List ℚ) (v : Value),
      values.length = weights.length → (∀ w ∈ weights, 0 ≤ w) → 0 < weights.sum →
      v ∈ values → weights.sum * (6/10) ≤ tallyWeight values weights v →
      majorityVote values weights = (some v, false))
    ∧ (∀ (v0 : Value) (rest : List Value) (weights : List ℚ),
      (∀ x ∈ v0 :: rest, tallyWeight (v0 :: rest) weights x < weights.sum * (6/10)) →
      majorityVote (v0 :: rest) weights = (some v0, true))
    ∧ (∀ (reports : List ValidatorReport) (now : ℤ) (cs : ConsensusStatus) (f : String),
      calculateConsensusStatus reports now = some cs → f ∈ categoricalFields →
      fieldValues reports f ≠ [] →
      lookupField cs.fields f
          = some ((majorityVote (fieldValues reports f) (fieldWeights reports f)).1)
        ∧ ((f, true) ∈ cs.conflicts_detected
          ↔ (majorityVote (fieldValues reports f) (fieldWeights reports f)).2 = true)) := by
  refine ⟨?_, ?_, ?_⟩
  · intro values weights v hlen hw htot hv hmaj
    have hne : values ≠ [] := List.ne_nil_of_mem hv
    have hemp : values.isEmpty = false := by
      cases values with
      | nil => exact absurd rfl hne
      | cons a t => rfl
    unfold majorityVote
    rw [hemp]
    simp only [Bool.false_eq_true, if_false]
    have hfind : (valueCounts values weights).find?
        (fun p => decide (weights.sum * (6/10) ≤ p.2))
          = some (v, tallyWeight values weights v) := by
      apply list_find_of_unique
      · exact List.mem_map_of_mem _ ((mem_firstDedup v values []).mpr ⟨hv, List.not_mem_nil v⟩)
      · exact decide_eq_true hmaj
      · intro b hb hpb
        obtain ⟨y, hy, heq⟩ := List.mem_map.mp hb
        subst heq
        by_cases hyv : y = v
        · subst hyv; rfl
        · exfalso
          have hcy : weights.sum * (6/10) ≤ tallyWeight values weights y :=
            of_decide_eq_true hpb
          have hpair := tally_pair_le values weights hlen hw y v hyv
          linarith
    rw [hfind]
  · intro v0 rest weights hall
    unfold majorityVote
    simp only [List.isEmpty_cons, Bool.false_eq_true, if_false]
    have hfind : (valueCounts (v0 :: rest) weights).find?
        (fun p => decide (weights.sum * (6/10) ≤ p.2)) = none := by
      rw [List.find?_eq_none]
      intro b hb
      obtain ⟨y, hy, heq⟩ := List.mem_map.mp hb
      subst heq
      have hymem : y ∈ v0 :: rest := ((mem_firstDedup y (v0 :: rest) []).mp hy).1
      simp only [decide_eq_true_eq]
      exact not_le.mpr (hall y hymem)
    rw [hfind]
    rfl
  · intro reports now cs f hcs hf hvals
    have hfAll : f ∈ allFields reports := mem_allFields_of_fieldValues_ne_nil reports f hvals
    have hnum : f ∉ numericFields := by
      rcases List.mem_cons.mp hf with rfl | hf2
      · simp [numericFields]
      · rcases List.mem_cons.mp hf2 with rfl | hf3
        · simp [numericFields]
        · cases hf3
    have hvale : (fieldValues reports f).isEmpty = false := by
      cases hfv : fieldValues reports f with
      | nil => exact absurd hfv hvals
      | cons a t => rfl
    unfold calculateConsensusStatus at hcs
    by_cases h1 : reports.isEmpty = true
    · rw [if_pos h1] at hcs; cases hcs
    rw [if_neg h1] at hcs
    by_cases h2 : hasNumericTypeError reports = true
    · rw [if_pos h2] at hcs; cases hcs
    rw [if_neg h2] at hcs
    injection hcs with hcs
    subst hcs
    constructor
    · show lookupField ((allFields reports).filterMap (fun g =>
        if (fieldValues reports g).isEmpty then none
        else some (g, consensusFieldValue reports g))) f = _
      rw [lookup_filterMap_keyed (fun g => (fieldValues reports g).isEmpty)
        (fun g => consensusFieldValue reports g) f (allFields reports)
        (nodup_firstDedup _ _) hfAll]
      rw [hvale]
      simp only [Bool.false_eq_true, if_false]
      unfold consensusFieldValue
      rw [if_neg hnum, if_pos hf]
    · show (f, true) ∈ (allFields reports).filterMap (fun g =>
        if (fieldValues reports g).isEmpty then none
        else if fieldConflict reports g then some (g, true) else none) ↔ _
      constructor
      · intro hmem
        obtain ⟨x, hx, hgx⟩ := List.mem_filterMap.mp hmem
        by_cases hx1 : (fieldValues reports x).isEmpty = true
        · rw [if_pos hx1] at hgx; cases hgx
        rw [if_neg hx1] at hgx
        by_cases hx2 : fieldConflict reports x = true
        · rw [if_pos hx2] at hgx
          injection hgx with hgx1
          obtain ⟨rfl, -⟩ := Prod.mk.injEq x true f true ▸ hgx1
          · unfold fieldConflict at hx2
            exact (Bool.and_eq_true _ _).mp hx2 |>.2
        · rw [if_neg hx2] at hgx; cases hgx
      · intro hmaj2
        apply List.mem_filterMap.mpr
        refine ⟨f, hfAll, ?_⟩
        rw [hvale]
        simp only [Bool.false_eq_true, if_false]
        rw [if_pos ?_]
        unfold fieldConflict
        exact (Bool.and_eq_true _ _).mpr ⟨decide_eq_true hf, hmaj2⟩

/-- C3 witness: the three parts at concrete inputs — a 2-of-2 winner on a
boolean field, a 1/1 split recording a conflict and falling back to the first
value, and the full consensus computation on a split `hotkey`. -/
theorem C3_categorical_majority_witness :
    majorityVote [Value.boolV true, Value.boolV true] [1, 1] = (some (Value.boolV true), false)
    ∧ majorityVote [Value.str "a", Value.str "b"] [1, 1] = (some (Value.str "a"), true)
    ∧ (lookupField c3cs.fields "hotkey"
        = some ((majorityVote (fieldValues [c3r1, c3r2] "hotkey")
            (fieldWeights [c3r1, c3r2] "hotkey")).1)
      ∧ (("hotkey", true) ∈ c3cs.conflicts_detected
        ↔ (majorityVote (fieldValues [c3r1, c3r2] "hotkey")
            (fieldWeights [c3r1, c3r2] "hotkey")).2 = true)) := by
  refine ⟨?_, ?_, ?_⟩
  · refine C3_categorical_majority.1 [Value.boolV true, Value.boolV true] [1, 1]
      (Value.boolV true) rfl ?_ (by norm_num) (by simp) ?_
    · intro w hw
      rcases List.mem_cons.mp hw with rfl | hw
      · norm_num
      · rw [List.mem_singleton.mp hw]; norm_num
    · simp +decide [tallyWeight, List.filter_cons]
      norm_num
  · refine C3_categorical_majority.2.1 (Value.str "a") [Value.str "b"] [1, 1] ?_
    intro x hx
    rcases List.mem_cons.mp hx with rfl | hx
    · simp +decide [tallyWeight, List.filter_cons]
      norm_num
    · rw [List.mem_singleton.mp hx]
      simp +decide [tallyWeight, List.filter_cons]
      norm_num
  · refine C3_categorical_majority.2.2 [c3r1, c3r2] 50 c3cs "hotkey" ?_
      (by simp [categoricalFields]) ?_
    · have h1 : ¬((1 + 1) * ((6 : ℚ)/10) ≤ 1) := by norm_num
      simp +decide [calculateConsensusStatus, c3r1, c3r2, c3cs, allFields, firstDedup,
        hasNumericTypeError, fieldValues, fieldWeights, lookupField, hasKey, List.find?,
        List.filter_cons, List.filterMap_cons, numericFields, categoricalFields,
        consensusFieldValue, fieldConflict, majorityVote, valueCounts, tallyWeight,
        overallConfidence, h1]
      norm_num
    · simp +decide [fieldValues, lookupField, c3r1, c3r2, List.find?]

/-- C1: at the concrete window `[c1r1, c1r2]` the default-class field `tag`
resolves to `Value.num 5` — the value of the FIRST key (`uid`) of the most
recent high-confidence report's payload — although that report's value for
`tag` itself is `Value.str "b"`: `_most_recent_high_confidence` is never told
which field it is aggregating and reads
`miner_status.get(list(miner_status.keys())[0])` instead of the field. -/
theorem C1_default_class_eval :
    mostRecentHighConfidence (fieldValues [c1r1, c1r2] "tag")
        (fieldWeights [c1r1, c1r2] "tag") [c1r1, c1r2] = some (Value.num 5)
    ∧ lookupField c1r2.miner_status "tag" = some (Value.str "b")
    ∧ c1r1.timestamp < c1r2.timestamp
    ∧ "tag" ∉ numericFields ∧ "tag" ∉ categoricalFields
    ∧ Value.num 5 ≠ Value.str "b" := by
  refine ⟨?_, rfl, by decide, by decide, by decide, by simp⟩
  have h1 : (8 : ℚ)/10 ≤ 1 := by norm_num
  simp +decide [mostRecentHighConfidence, fieldValues, fieldWeights, lookupField, hasKey,
    c1r1, c1r2, listMaxQ, argmaxTimestamp, List.find?, List.filter_cons,
    List.filterMap_cons, h1]
